import Mathlib

/-!
Verification of the IPv4 core in src/ipv4.c (Internet checksum, send-side
encapsulation, receive-side validation and dispatch).

Modelling conventions:
* A byte of memory is a `Nat`; every read through the embedding masks with
  `% 256`, mirroring the `uint8_t` cells of the C buffers.
* Machine integers are `Nat` with explicit `% 2 ^ w` where the C arithmetic
  can wrap (`uint32_t` accumulator in the checksum, `uint16_t` lengths).
* A little-endian host is assumed, as on the machines the driver targets:
  a `uint16_t` load of bytes `b0, b1` (in address order) yields
  `b0 + 256 * b1`, and `htons`/`ntohs` swap bytes.
* The inbound frame handed to `ipv4_receive` is a pointer into memory; the
  C code indexes it without consulting the length argument, so the model
  takes the whole memory `mem : Nat → Nat` (byte at each offset from the
  start of the packet) together with the frame length.
-/

/-! ## Checksum Engine (ipv4.c lines 12-27) -/

/-- The summation loop of `ipv4_checksum` (ipv4.c lines 16-22): consume the
byte region two bytes at a time as host-order 16-bit words, accumulating
into a wrapping 32-bit sum; a final odd byte is added on its own (the low
byte of a last word whose high byte is zero). -/
def sumWords : List Nat → Nat → Nat
  | b0 :: b1 :: rest, sum => sumWords rest ((sum + (b0 + 256 * b1)) % 4294967296)
  | [b], sum => (sum + b) % 4294967296
  | [], sum => sum

/-- Fuel-indexed form of the carry-folding loop of `ipv4_checksum`
(ipv4.c lines 23-25).  Each iteration strictly decreases the sum, so any
fuel at least the starting sum reaches the fixed point; `foldCarry` below
supplies that fuel and `foldCarry_eq` recovers the loop equation. -/
def foldCarryAux : Nat → Nat → Nat
  | 0, sum => sum
  | fuel + 1, sum =>
    if 65536 ≤ sum then foldCarryAux fuel (sum % 65536 + sum / 65536) else sum

/-- The carry-folding loop `while (sum >> 16) sum = (sum & 0xFFFF) + (sum >> 16)`
of ipv4.c lines 23-25. -/
def foldCarry (sum : Nat) : Nat := foldCarryAux sum sum

/-- `ipv4_checksum` (ipv4.c lines 12-27): wrapping 32-bit sum of host-order
16-bit words, carries folded back, then the bitwise complement truncated to
16 bits (`return ~sum` through the `uint16_t` return type, i.e.
`65535 - sum` once `sum < 65536`). -/
def ipv4_checksum (bytes : List Nat) : Nat :=
  65535 - foldCarry (sumWords bytes 0)

/-- Modelled from the spec (§4.1 Checksum Engine contract): the RFC 1071
Internet checksum as the spec words it — the plain (unbounded) sum of the
region read as consecutive host-order 16-bit words, an odd trailing byte as
the low byte of a final word, every carry out of bit 16 folded back until
none remains, and the one's complement (bitwise NOT) of the final 16-bit
sum.  Used to compare the code's `ipv4_checksum` against the contract. -/
def rfc1071_sum : List Nat → Nat
  | b0 :: b1 :: rest => b0 + 256 * b1 + rfc1071_sum rest
  | [b] => b
  | [] => 0

/-- Modelled from the spec (§4.1): complement of the folded word sum. -/
def rfc1071_checksum (bytes : List Nat) : Nat :=
  65535 - foldCarry (rfc1071_sum bytes)

/-! ## Send path (ipv4.c lines 32-73) -/

/-- The 20 bytes of the IPv4 header written by `ipv4_send` (ipv4.c lines
37-50), with the checksum field holding `chk` (stored little-endian, exactly
as the `uint16_t` assignment lays it out in memory): version/IHL byte 0x45,
TOS 0, `htons(20 + payload_len)` in bytes 2-3, identification 0, flags and
fragment offset 0, TTL 64, the protocol byte, the checksum field in bytes
10-11, then the source and destination addresses (the raw `uint32_t`
register values, laid out little-endian as on the host). -/
def mkHeader (srcIp dstIp proto payload_len chk : Nat) : List Nat :=
  let total := (20 + payload_len) % 65536
  [69, 0, total / 256 % 256, total % 256,
   0, 0, 0, 0,
   64, proto % 256, chk % 256, chk / 256 % 256,
   srcIp % 256, srcIp / 256 % 256, srcIp / 65536 % 256, srcIp / 16777216 % 256,
   dstIp % 256, dstIp / 256 % 256, dstIp / 65536 % 256, dstIp / 16777216 % 256]

/-- The header as finally stored by `ipv4_send` (ipv4.c lines 50-51): the
checksum field first zeroed, then overwritten with `ipv4_checksum` of the
zero-checksum header. -/
def ipv4_header (srcIp dstIp proto payload_len : Nat) : List Nat :=
  mkHeader srcIp dstIp proto payload_len
    (ipv4_checksum (mkHeader srcIp dstIp proto payload_len 0))

/-- The six source MAC bytes copied from the device record
(ipv4.c line 63). -/
def macBytes (mac : List Nat) : List Nat :=
  (List.range 6).map (fun i => mac.getD i 0 % 256)

/-- `ipv4_send` (ipv4.c lines 32-73), as the Ethernet frame handed to the
driver: broadcast destination MAC, device source MAC, ethertype 0x0800
(bytes 8, 0 in network order), then the first `ip_packet_len` bytes of the
IP buffer (header followed by the payload), where
`ip_packet_len = (uint16_t)(20 + payload_len)`.  The transmitted length is
the length of this list (`ip_packet_len + 14`). -/
def ipv4_send (nicIp : Nat) (nicMac : List Nat) (dstIp proto : Nat)
    (payload : List Nat) : List Nat :=
  let ipPacket := ipv4_header nicIp dstIp proto payload.length
      ++ payload.map (fun b => b % 256)
  let ip_packet_len := (20 + payload.length) % 65536
  List.replicate 6 255 ++ macBytes nicMac ++ [8, 0] ++ ipPacket.take ip_packet_len

/-- The buffer writes `ipv4_send` performs, as (offset, length) regions:
first into the 2048-byte `buffer` (the ten header field stores of lines
37-51 and the payload memcpy of line 54), then into the 2048-byte
`ethernet_buffer` (destination MAC, source MAC, ethertype, and the
`ip_packet_len`-byte memcpy of the IP packet, lines 62-69).  Both stack
buffers hold 2048 bytes. -/
def ipv4_send_writes (payload_len : Nat) : List (Nat × Nat) :=
  [(0, 1), (1, 1), (2, 2), (4, 2), (6, 2), (8, 1), (9, 1), (12, 4), (16, 4),
   (10, 2),
   (20, payload_len),
   (0, 6), (6, 6), (12, 2),
   (14, (20 + payload_len) % 65536)]

/-- Bound check for one write region against the 2048-byte stack buffers. -/
def writesInBounds (payload_len : Nat) : Bool :=
  (ipv4_send_writes payload_len).all (fun w => decide (w.1 + w.2 ≤ 2048))

/-! ## Receive path (ipv4.c lines 78-116) -/

/-- Outcome of one `ipv4_receive` call.  The C function returns `void`;
the observable effect is either one of the two silent early returns, the
call into the ICMP handler (protocol 1) with the header's raw source
address, the payload pointer and the computed payload length, or the
generic diagnostic path for every other protocol, which prints the same
source address, the protocol byte, the payload length and payload bytes. -/
inductive RxAction where
  | dropChecksum : RxAction
  | dropAddr : RxAction
  | icmpDeliver (src : Nat) (payload : List Nat) (payload_len : Nat) : RxAction
  | genericLog (src : Nat) (proto : Nat) (payload : List Nat) (payload_len : Nat) : RxAction
  deriving DecidableEq

/-- The 20 header bytes `ipv4_receive` reads at the start of the packet
memory (ipv4.c line 79, the cast of `packet` to `struct ipv4_header *`). -/
def headerBytes (mem : Nat → Nat) : List Nat :=
  (List.range 20).map (fun i => mem i % 256)

/-- The destination address field as loaded from bytes 16-19
(little-endian `uint32_t` load of `hdr->destination_address`). -/
def dstAddr (mem : Nat → Nat) : Nat :=
  mem 16 % 256 + 256 * (mem 17 % 256) + 65536 * (mem 18 % 256)
    + 16777216 * (mem 19 % 256)

/-- The source address field as loaded from bytes 12-15. -/
def srcAddr (mem : Nat → Nat) : Nat :=
  mem 12 % 256 + 256 * (mem 13 % 256) + 65536 * (mem 14 % 256)
    + 16777216 * (mem 15 % 256)

/-- `ipv4_receive` (ipv4.c lines 78-116).  `mem` is the packet memory (byte
at each offset from `packet`), `len` the frame length argument — which the
C code never consults, so the model does not either: every validation gap
of the source (no short-frame check, no IHL check, no total-length versus
frame-length check) is preserved.  Steps: checksum over the 20 header bytes
as received (drop when nonzero), destination filter (own address or
limited broadcast), then payload extraction at offset
`(version_ihl & 0x0F) * 4` with `uint16_t` payload length
`ntohs(total_length) - ip_hdr_len`, and dispatch on the protocol byte. -/
def ipv4_receive (nicIp : Nat) (mem : Nat → Nat) (len : Nat) : RxAction :=
  if ipv4_checksum (headerBytes mem) ≠ 0 then RxAction.dropChecksum
  else if dstAddr mem ≠ nicIp ∧ dstAddr mem ≠ 4294967295 then RxAction.dropAddr
  else
    let ip_hdr_len := mem 0 % 256 % 16 * 4
    let payload_len := (256 * (mem 2 % 256) + mem 3 % 256 + 65536 - ip_hdr_len) % 65536
    let payload := (List.range payload_len).map (fun i => mem (ip_hdr_len + i) % 256)
    if mem 9 % 256 = 1 then RxAction.icmpDeliver (srcAddr mem) payload payload_len
    else RxAction.genericLog (srcAddr mem) (mem 9 % 256) payload payload_len

/-- What reaches an upper layer: `some (source, protocol, payload, length)`
when a handler (ICMP or the generic fallback) is invoked, `none` on the two
silent drops. -/
def dispatchOf : RxAction → Option (Nat × Nat × List Nat × Nat)
  | RxAction.icmpDeliver src p l => some (src, 1, p, l)
  | RxAction.genericLog src proto p l => some (src, proto, p, l)
  | _ => none

/-- Whether the call got past both drop points. -/
def isDispatch : RxAction → Bool
  | RxAction.icmpDeliver _ _ _ => true
  | RxAction.genericLog _ _ _ _ => true
  | _ => false

/-! ## Concrete frames used in the analysis -/

/-- A 20-byte region with a valid checksum (version/IHL 0x45, total length
20, checksum field bytes 186, 235, destination 0.0.0.0): the memory that
happens to follow a zero-length inbound frame in the short-frame analysis. -/
def shortFrameMem : Nat → Nat :=
  fun i => [69, 0, 0, 20, 0, 0, 0, 0, 0, 0, 186, 235, 0, 0, 0, 0, 0, 0, 0, 0].getD i 0

/-- A 20-byte header with a valid checksum whose IHL field is 6 (version
byte 0x46) and declared total length 28: the header length the core does
not support, with the payload window reaching past a 20-byte frame. -/
def badIhlMem : Nat → Nat :=
  fun i => [70, 0, 0, 28, 0, 0, 0, 0, 0, 0, 185, 227, 0, 0, 0, 0, 0, 0, 0, 0].getD i 0

/-- An all-zero header except for an all-ones checksum field: its word sum
is exactly 0xFFFF, so it checksums to zero; destination field 0.0.0.0. -/
def zeroDstMem : Nat → Nat :=
  fun i => if i = 10 then 255 else if i = 11 then 255 else 0


/-! ### Properties of the carry fold -/

theorem foldCarryAux_mod (fuel : Nat) :
    ∀ sum : Nat, foldCarryAux fuel sum % 65535 = sum % 65535 := by
  induction fuel with
  | zero => intro sum; rfl
  | succ f ih =>
    intro sum
    simp only [foldCarryAux]
    split
    · rw [ih]; omega
    · rfl

theorem foldCarryAux_le (fuel : Nat) :
    ∀ sum : Nat, foldCarryAux fuel sum ≤ sum := by
  induction fuel with
  | zero => intro sum; exact Nat.le_refl sum
  | succ f ih =>
    intro sum
    simp only [foldCarryAux]
    split
    · exact Nat.le_trans (ih _) (by omega)
    · exact Nat.le_refl sum

theorem foldCarryAux_pos (fuel : Nat) :
    ∀ sum : Nat, 0 < sum → 0 < foldCarryAux fuel sum := by
  induction fuel with
  | zero => intro sum h; exact h
  | succ f ih =>
    intro sum h
    simp only [foldCarryAux]
    split
    · exact ih _ (by omega)
    · exact h

theorem foldCarryAux_lt (fuel : Nat) :
    ∀ sum : Nat, sum ≤ fuel → foldCarryAux fuel sum < 65536 := by
  induction fuel with
  | zero =>
    intro sum h
    have hz : sum = 0 := Nat.le_zero.mp h
    simp [foldCarryAux, hz]
  | succ f ih =>
    intro sum h
    simp only [foldCarryAux]
    split
    · exact ih _ (by omega)
    · omega

theorem foldCarryAux_small (fuel : Nat) (sum : Nat) (h : sum < 65536) :
    foldCarryAux fuel sum = sum := by
  cases fuel with
  | zero => rfl
  | succ f => simp only [foldCarryAux]; rw [if_neg (by omega)]

theorem foldCarryAux_fuel (f1 : Nat) :
    ∀ f2 sum : Nat, sum ≤ f1 → sum ≤ f2 →
      foldCarryAux f1 sum = foldCarryAux f2 sum := by
  induction f1 with
  | zero =>
    intro f2 sum h1 _
    have hz : sum = 0 := Nat.le_zero.mp h1
    rw [hz, foldCarryAux_small 0 0 (by omega), foldCarryAux_small f2 0 (by omega)]
  | succ f ih =>
    intro f2 sum h1 h2
    by_cases hs : 65536 ≤ sum
    · cases f2 with
      | zero => omega
      | succ g =>
        simp only [foldCarryAux]
        rw [if_pos hs, if_pos hs]
        exact ih g _ (by omega) (by omega)
    · rw [foldCarryAux_small _ _ (by omega), foldCarryAux_small _ _ (by omega)]

/-- The fuel-indexed fold satisfies exactly the loop equation of
ipv4.c lines 23-25. -/
theorem foldCarry_eq (sum : Nat) :
    foldCarry sum =
      if 65536 ≤ sum then foldCarry (sum % 65536 + sum / 65536) else sum := by
  by_cases h : 65536 ≤ sum
  · rw [if_pos h]
    show foldCarryAux sum sum = foldCarry (sum % 65536 + sum / 65536)
    cases sum with
    | zero => omega
    | succ k =>
      simp only [foldCarryAux]
      rw [if_pos h]
      exact foldCarryAux_fuel k _ _ (by omega) (by omega)
  · rw [if_neg h]
    exact foldCarryAux_small sum sum (by omega)

theorem foldCarry_mod (sum : Nat) : foldCarry sum % 65535 = sum % 65535 :=
  foldCarryAux_mod sum sum

theorem foldCarry_le (sum : Nat) : foldCarry sum ≤ sum :=
  foldCarryAux_le sum sum

theorem foldCarry_pos (sum : Nat) (h : 0 < sum) : 0 < foldCarry sum :=
  foldCarryAux_pos sum sum h

theorem foldCarry_lt (sum : Nat) : foldCarry sum < 65536 :=
  foldCarryAux_lt sum sum (Nat.le_refl sum)

/-- A positive multiple of 65535 folds to exactly 65535. -/
theorem foldCarry_of_mod_eq_zero (sum : Nat) (h : sum % 65535 = 0) (hp : 0 < sum) :
    foldCarry sum = 65535 := by
  have h1 := foldCarry_mod sum
  have h2 := foldCarry_lt sum
  have h3 := foldCarry_pos sum hp
  omega

/-- The wrapping 32-bit accumulation relates to the unbounded word sum by a
single reduction modulo 2^32. -/
theorem sumWords_eq_rfc :
    ∀ (l : List Nat) (s : Nat), s < 4294967296 →
      sumWords l s = (s + rfc1071_sum l) % 4294967296 := by
  have H : ∀ (n : Nat) (l : List Nat), l.length ≤ n → ∀ s : Nat,
      s < 4294967296 → sumWords l s = (s + rfc1071_sum l) % 4294967296 := by
    intro n
    induction n with
    | zero =>
      intro l hl s hs
      cases l with
      | nil => simp [sumWords, rfc1071_sum, Nat.mod_eq_of_lt hs]
      | cons a t => simp at hl
    | succ n ih =>
      intro l hl s hs
      cases l with
      | nil => simp [sumWords, rfc1071_sum, Nat.mod_eq_of_lt hs]
      | cons b0 t =>
        cases t with
        | nil => simp [sumWords, rfc1071_sum]
        | cons b1 rest =>
          simp only [sumWords, rfc1071_sum]
          rw [ih rest (by simp at hl; omega) _ (Nat.mod_lt _ (by omega))]
          rw [Nat.mod_add_mod]
          ring_nf
  intro l s hs
  exact H l.length l (Nat.le_refl _) s hs

/-! ## Helper lemmas about the constructed header -/

theorem mod256_mod256 (a : Nat) : a % 256 % 256 = a % 256 := by omega

/-- Adding a sub-65536 checksum value into the checksum field raises the
word sum of the header by exactly that value. -/
theorem rfc_sum_mkHeader (srcIp dstIp proto payload_len chk : Nat)
    (h : chk < 65536) :
    rfc1071_sum (mkHeader srcIp dstIp proto payload_len chk)
      = rfc1071_sum (mkHeader srcIp dstIp proto payload_len 0) + chk := by
  simp only [mkHeader, rfc1071_sum]
  omega

/-- The word sum of any header built by the Encapsulator is below ten full
words, in particular far below 2^32. -/
theorem rfc_sum_mkHeader_lt (srcIp dstIp proto payload_len chk : Nat) :
    rfc1071_sum (mkHeader srcIp dstIp proto payload_len chk) < 655360 := by
  simp only [mkHeader, rfc1071_sum]
  omega

/-- Core checksum inversion: the header stored by `ipv4_send` — checksum
field holding the checksum of the header with that field zero — itself
checksums to zero. -/
theorem ipv4_header_checksum_zero (srcIp dstIp proto payload_len : Nat) :
    ipv4_checksum (ipv4_header srcIp dstIp proto payload_len) = 0 := by
  have hS0 : sumWords (mkHeader srcIp dstIp proto payload_len 0) 0
      = rfc1071_sum (mkHeader srcIp dstIp proto payload_len 0) := by
    rw [sumWords_eq_rfc _ 0 (by omega)]
    have := rfc_sum_mkHeader_lt srcIp dstIp proto payload_len 0
    omega
  set S := rfc1071_sum (mkHeader srcIp dstIp proto payload_len 0) with hSdef
  have hSlt : S < 655360 :=
    rfc_sum_mkHeader_lt srcIp dstIp proto payload_len 0
  have hchk : ipv4_checksum (mkHeader srcIp dstIp proto payload_len 0)
      = 65535 - foldCarry S := by
    rw [ipv4_checksum, hS0]
  set F := foldCarry S with hFdef
  have hFlt : F < 65536 := foldCarry_lt S
  have hFle : F ≤ S := foldCarry_le S
  have hFmod : F % 65535 = S % 65535 := foldCarry_mod S
  rw [ipv4_header, hchk, ipv4_checksum]
  have hsum2 : rfc1071_sum (mkHeader srcIp dstIp proto payload_len (65535 - F))
      = S + (65535 - F) := by
    rw [rfc_sum_mkHeader _ _ _ _ _ (by omega), ← hSdef]
  have hsw2 : sumWords (mkHeader srcIp dstIp proto payload_len (65535 - F)) 0
      = S + (65535 - F) := by
    rw [sumWords_eq_rfc _ 0 (by omega), hsum2]
    omega
  rw [hsw2]
  have hfold : foldCarry (S + (65535 - F)) = 65535 :=
    foldCarry_of_mod_eq_zero _ (by omega) (by omega)
  rw [hfold]

/-! ## Structure of the transmitted frame -/

theorem mkHeader_length (srcIp dstIp proto payload_len chk : Nat) :
    (mkHeader srcIp dstIp proto payload_len chk).length = 20 := rfl

theorem ipv4_header_length (srcIp dstIp proto payload_len : Nat) :
    (ipv4_header srcIp dstIp proto payload_len).length = 20 := rfl

theorem macBytes_length (mac : List Nat) : (macBytes mac).length = 6 := rfl

/-- When the IP packet fits a `uint16_t` (payload at most 65515 bytes), the
frame handed to the driver is exactly the Ethernet header followed by the
whole IPv4 header and payload — the `ip_packet_len` truncation is the
identity. -/
theorem ipv4_send_eq (nicIp : Nat) (nicMac : List Nat) (dstIp proto : Nat)
    (payload : List Nat) (h : payload.length ≤ 65515) :
    ipv4_send nicIp nicMac dstIp proto payload
      = List.replicate 6 255 ++ macBytes nicMac ++ [8, 0]
        ++ ipv4_header nicIp dstIp proto payload.length
        ++ payload.map (fun b => b % 256) := by
  have hmod : (20 + payload.length) % 65536 = 20 + payload.length := by omega
  have hlen : (ipv4_header nicIp dstIp proto payload.length
      ++ payload.map (fun b => b % 256)).length = 20 + payload.length := by
    simp [ipv4_header_length]
  rw [ipv4_send]
  simp only [hmod]
  rw [List.take_of_length_le (by rw [hlen])]
  simp [List.append_assoc]

/-! ## Reading the constructed packet back -/

theorem range_map_getD_take (l : List Nat) :
    ∀ k, k ≤ l.length → (List.range k).map (fun i => l.getD i 0) = l.take k := by
  intro k
  induction k with
  | zero => intro h; simp
  | succ k ih =>
    intro h
    rw [List.range_succ, List.map_append, ih (by omega), List.take_succ]
    simp only [List.map_cons, List.map_nil]
    congr 1
    rw [List.getD_eq_getElem l 0 (by omega)]
    simp [List.getElem?_eq_getElem (show k < l.length by omega)]

theorem map_mod_id (l : List Nat) (h : ∀ b ∈ l, b < 256) :
    l.map (fun b => b % 256) = l := by
  induction l with
  | nil => rfl
  | cons a t ih =>
    simp only [List.map_cons]
    rw [Nat.mod_eq_of_lt (h a (by simp)), ih (fun b hb => h b (by simp [hb]))]

theorem mkHeader_mem_lt (srcIp dstIp proto payload_len chk : Nat) :
    ∀ b ∈ mkHeader srcIp dstIp proto payload_len chk, b < 256 := by
  intro b hb
  simp only [mkHeader, List.mem_cons, List.not_mem_nil, or_false] at hb
  rcases hb with rfl | rfl | rfl | rfl | rfl | rfl | rfl | rfl | rfl | rfl | rfl
    | rfl | rfl | rfl | rfl | rfl | rfl | rfl | rfl | rfl <;> omega

/-- Reading the first 20 bytes of an all-bytes region through the masked
header view recovers its 20-byte prefix. -/
theorem headerBytes_of_getD (l : List Nat) (h20 : 20 ≤ l.length)
    (hb : ∀ b ∈ l, b < 256) :
    headerBytes (fun i => l.getD i 0) = l.take 20 := by
  rw [headerBytes, ← range_map_getD_take l 20 h20]
  apply List.map_congr_left
  intro i hi
  have hil : i < 20 := List.mem_range.mp hi
  have hlt : l.getD i 0 < 256 := by
    rw [List.getD_eq_getElem l 0 (by omega)]
    exact hb _ (List.getElem_mem _)
  exact Nat.mod_eq_of_lt hlt

/-- Once the checksum passes and the destination matches (own address or
broadcast), `ipv4_receive` reaches the dispatch step. -/
theorem ipv4_receive_accept (nicIp : Nat) (mem : Nat → Nat) (len : Nat)
    (hc : ipv4_checksum (headerBytes mem) = 0)
    (ha : dstAddr mem = nicIp ∨ dstAddr mem = 4294967295) :
    ipv4_receive nicIp mem len =
      (let ip_hdr_len := mem 0 % 256 % 16 * 4
       let payload_len := (256 * (mem 2 % 256) + mem 3 % 256 + 65536 - ip_hdr_len) % 65536
       let payload := (List.range payload_len).map (fun i => mem (ip_hdr_len + i) % 256)
       if mem 9 % 256 = 1 then RxAction.icmpDeliver (srcAddr mem) payload payload_len
       else RxAction.genericLog (srcAddr mem) (mem 9 % 256) payload payload_len) := by
  rw [ipv4_receive, if_neg (by simp [hc]),
    if_neg (by rcases ha with h | h <;> simp [h])]

/-- The Decapsulator applied to the packet the Encapsulator just built
(the frame with its 14 Ethernet bytes stripped): when the receiving
device's address is the packet's destination (or the destination is the
limited broadcast), the payload, protocol, payload length and the sending
device's address are handed to the dispatch layer unchanged. -/
theorem receive_of_sent_packet (nicIp dstIp proto : Nat) (payload : List Nat)
    (recvIp len : Nat) (mem : Nat → Nat)
    (hmem : ∀ i, mem i = (ipv4_header nicIp dstIp proto payload.length
        ++ payload.map (fun b => b % 256)).getD i 0)
    (hsrc : nicIp < 4294967296) (hdst : dstIp < 4294967296) (hproto : proto < 256)
    (hlen : payload.length ≤ 65515)
    (hbytes : ∀ b ∈ payload, b < 256)
    (haddr : recvIp = dstIp ∨ dstIp = 4294967295) :
    dispatchOf (ipv4_receive recvIp mem len)
      = some (nicIp, proto, payload, payload.length) := by
  have hl20 : (ipv4_header nicIp dstIp proto payload.length).length = 20 :=
    ipv4_header_length nicIp dstIp proto payload.length
  have hball : ∀ b ∈ ipv4_header nicIp dstIp proto payload.length
      ++ payload.map (fun b => b % 256), b < 256 := by
    intro b hb
    rcases List.mem_append.mp hb with h | h
    · exact mkHeader_mem_lt _ _ _ _ _ b h
    · rcases List.mem_map.mp h with ⟨a, _, rfl⟩
      omega
  -- the 20 header bytes seen by the receiver are exactly the stored header
  have hhb : headerBytes mem = ipv4_header nicIp dstIp proto payload.length := by
    have hfun : headerBytes mem = headerBytes
        (fun i => (ipv4_header nicIp dstIp proto payload.length
          ++ payload.map (fun b => b % 256)).getD i 0) := by
      simp only [headerBytes, hmem]
    rw [hfun, headerBytes_of_getD _ (by simp [hl20]) hball, ← hl20]
    exact List.take_left _ _
  have hcz : ipv4_checksum (headerBytes mem) = 0 := by
    rw [hhb]; exact ipv4_header_checksum_zero nicIp dstIp proto payload.length
  -- individual header byte reads
  have hrd : ∀ j, j < 20 → mem j
      = (ipv4_header nicIp dstIp proto payload.length).getD j 0 := by
    intro j hj
    rw [hmem, List.getD_append _ _ _ _ (by rw [hl20]; omega)]
  have h0 : mem 0 = 69 := by rw [hrd 0 (by omega)]; rfl
  have h2 : mem 2 = (20 + payload.length) % 65536 / 256 % 256 := by
    rw [hrd 2 (by omega)]; rfl
  have h3 : mem 3 = (20 + payload.length) % 65536 % 256 := by
    rw [hrd 3 (by omega)]; rfl
  have h9 : mem 9 = proto % 256 := by rw [hrd 9 (by omega)]; rfl
  have h12 : mem 12 = nicIp % 256 := by rw [hrd 12 (by omega)]; rfl
  have h13 : mem 13 = nicIp / 256 % 256 := by rw [hrd 13 (by omega)]; rfl
  have h14 : mem 14 = nicIp / 65536 % 256 := by rw [hrd 14 (by omega)]; rfl
  have h15 : mem 15 = nicIp / 16777216 % 256 := by rw [hrd 15 (by omega)]; rfl
  have h16 : mem 16 = dstIp % 256 := by rw [hrd 16 (by omega)]; rfl
  have h17 : mem 17 = dstIp / 256 % 256 := by rw [hrd 17 (by omega)]; rfl
  have h18 : mem 18 = dstIp / 65536 % 256 := by rw [hrd 18 (by omega)]; rfl
  have h19 : mem 19 = dstIp / 16777216 % 256 := by rw [hrd 19 (by omega)]; rfl
  have hd : dstAddr mem = dstIp := by
    rw [dstAddr, h16, h17, h18, h19]; omega
  have hsa : srcAddr mem = nicIp := by
    rw [srcAddr, h12, h13, h14, h15]; omega
  rw [ipv4_receive_accept recvIp mem len hcz
    (by rcases haddr with h | h <;> [left; right] <;> omega)]
  simp only []
  have hihl : mem 0 % 256 % 16 * 4 = 20 := by rw [h0]
  rw [hihl]
  have hplen : (256 * (mem 2 % 256) + mem 3 % 256 + 65536 - 20) % 65536
      = payload.length := by
    rw [h2, h3]; omega
  rw [hplen]
  have hm2 : ∀ i, mem (20 + i) = (payload.map (fun b => b % 256)).getD i 0 := by
    intro i
    rw [hmem, List.getD_append_right _ _ _ _ (by rw [hl20]; omega)]
    rw [hl20, Nat.add_sub_cancel_left]
  have hpl : (List.range payload.length).map (fun i => mem (20 + i) % 256)
      = payload := by
    simp only [hm2]
    have hstable : ∀ i, (payload.map (fun b => b % 256)).getD i 0 % 256
        = (payload.map (fun b => b % 256)).getD i 0 := by
      intro i
      by_cases hi : i < (payload.map (fun b => b % 256)).length
      · rw [List.getD_eq_getElem _ 0 hi, List.getElem_map]
        omega
      · rw [List.getD_eq_default _ _ (by omega)]
    simp only [hstable]
    have hplm : payload.length = (payload.map (fun b => b % 256)).length := by simp
    rw [hplm, range_map_getD_take _ _ (Nat.le_refl _), List.take_length]
    exact map_mod_id payload hbytes
  rw [hpl, hsa]
  have h9v : mem 9 % 256 = proto := by rw [h9]; omega
  rw [h9v]
  by_cases hp : proto = 1
  · rw [if_pos hp, hp, dispatchOf]
  · rw [if_neg hp, dispatchOf]

/-! ## Frame indexing and word-sum bounds -/

/-- Stripping the transmitted frame at offset 14 and beyond skips the
Ethernet header and lands in the IP packet. -/
theorem eth_getD (nicMac : List Nat) (rest : List Nat) (i : Nat) :
    (List.replicate 6 255 ++ (macBytes nicMac ++ ([8, 0] ++ rest))).getD (14 + i) 0
      = rest.getD i 0 := by
  rw [List.getD_append_right _ _ _ _ (by simp; omega)]
  have e1 : 14 + i - (List.replicate 6 (255 : Nat)).length = 8 + i := by simp; omega
  rw [e1, List.getD_append_right _ _ _ _ (by rw [macBytes_length]; omega)]
  have e2 : 8 + i - (macBytes nicMac).length = 2 + i := by rw [macBytes_length]; omega
  rw [e2, List.getD_append_right _ _ _ _ (by simp)]
  have e3 : 2 + i - ([8, 0] : List Nat).length = i := by simp
  rw [e3]


theorem frame_getD (nicIp : Nat) (nicMac : List Nat) (dstIp proto : Nat)
    (payload : List Nat) (h : payload.length ≤ 65515) (i : Nat) :
    (ipv4_send nicIp nicMac dstIp proto payload).getD (14 + i) 0
      = (ipv4_header nicIp dstIp proto payload.length
          ++ payload.map (fun b => b % 256)).getD i 0 := by
  rw [ipv4_send_eq _ _ _ _ _ h]
  simp only [List.append_assoc]
  exact eth_getD nicMac _ i

theorem rfc1071_sum_le (l : List Nat) (hb : ∀ b ∈ l, b < 256) :
    rfc1071_sum l ≤ 65535 * ((l.length + 1) / 2) := by
  have H : ∀ (n : Nat) (l : List Nat), l.length ≤ n → (∀ b ∈ l, b < 256) →
      rfc1071_sum l ≤ 65535 * ((l.length + 1) / 2) := by
    intro n
    induction n with
    | zero =>
      intro l hl _
      cases l with
      | nil => simp [rfc1071_sum]
      | cons a t => simp at hl
    | succ n ih =>
      intro l hl hb
      cases l with
      | nil => simp [rfc1071_sum]
      | cons b0 t =>
        cases t with
        | nil =>
          have := hb b0 (by simp)
          simp only [rfc1071_sum, List.length_cons, List.length_nil]
          omega
        | cons b1 rest =>
          have h0 := hb b0 (by simp)
          have h1 := hb b1 (by simp)
          have hr := ih rest (by simp at hl; omega)
            (fun b hbmem => hb b (by simp [hbmem]))
          simp only [rfc1071_sum, List.length_cons]
          have hdiv : (rest.length + 1 + 1 + 1) / 2 = (rest.length + 1) / 2 + 1 := by omega
          rw [hdiv]
          omega
  exact H l.length l (Nat.le_refl _) hb

theorem rfc1071_sum_replicate255 (k : Nat) :
    rfc1071_sum (List.replicate (2 * k) 255) = k * 65535 := by
  induction k with
  | zero => rfl
  | succ k ih =>
    have h2 : 2 * (k + 1) = 2 * k + 1 + 1 := by omega
    rw [h2, List.replicate_succ, List.replicate_succ]
    simp only [rfc1071_sum]
    rw [ih]
    ring

/-- Length of the transmitted frame: 14 Ethernet bytes plus the uint16
packet length. -/
theorem ipv4_send_length (nicIp : Nat) (nicMac : List Nat) (dstIp proto : Nat)
    (payload : List Nat) :
    (ipv4_send nicIp nicMac dstIp proto payload).length
      = 14 + (20 + payload.length) % 65536 := by
  rw [ipv4_send]
  rw [List.length_append, List.length_append, List.length_append,
    List.length_take, List.length_replicate, macBytes_length, List.length_append,
    List.length_map, ipv4_header_length]
  have hml : ([8, 0] : List Nat).length = 2 := rfl
  rw [hml]
  omega

/-! ## Claim theorems -/

/-- C8: every header constructed by ipv4_send — its checksum field holding
the Internet checksum computed over the header with that field zeroed —
checksums to zero when ipv4_checksum is applied to the full stored header,
checksum field included. -/
theorem claim_c8_checksum_self_inverse (srcIp dstIp proto payload_len : Nat) :
    ipv4_checksum (ipv4_header srcIp dstIp proto payload_len) = 0 :=
  ipv4_header_checksum_zero srcIp dstIp proto payload_len

/-- C5: whenever the Internet checksum of the 20 header bytes exactly as
received (checksum field included, unmodified) is nonzero, ipv4_receive
returns the silent checksum drop: no protocol handler runs, no error is
surfaced and no state is kept (the outcome is the bare early return of
ipv4.c line 83). -/
theorem claim_c5_checksum_drop (nicIp : Nat) (mem : Nat → Nat) (len : Nat)
    (h : ipv4_checksum (headerBytes mem) ≠ 0) :
    ipv4_receive nicIp mem len = RxAction.dropChecksum := by
  rw [ipv4_receive, if_pos h]

theorem claim_c5_checksum_drop_witness :
    ipv4_checksum (headerBytes (fun _ => 0)) ≠ 0 ∧
      ipv4_receive 0 (fun _ => 0) 20 = RxAction.dropChecksum :=
  ⟨by decide, claim_c5_checksum_drop 0 (fun _ => 0) 20 (by decide)⟩

/-- C6: past the checksum check, ipv4_receive reaches the protocol
dispatcher exactly when the destination field equals the device's own
address or the all-ones limited broadcast; in every other case it returns
silently before dispatch. -/
theorem claim_c6_destination_filter (nicIp : Nat) (mem : Nat → Nat) (len : Nat)
    (h : ipv4_checksum (headerBytes mem) = 0) :
    isDispatch (ipv4_receive nicIp mem len) = true ↔
      (dstAddr mem = nicIp ∨ dstAddr mem = 4294967295) := by
  by_cases ha : dstAddr mem ≠ nicIp ∧ dstAddr mem ≠ 4294967295
  · rw [ipv4_receive, if_neg (by simp [h]), if_pos ha]
    simp only [isDispatch, Bool.false_eq_true, false_iff]
    omega
  · have hd : dstAddr mem = nicIp ∨ dstAddr mem = 4294967295 := by omega
    rw [ipv4_receive_accept nicIp mem len h hd]
    constructor
    · intro _; exact hd
    · intro _
      by_cases hp : mem 9 % 256 = 1
      · simp only [if_pos hp, isDispatch]
      · simp only [if_neg hp, isDispatch]

theorem claim_c6_destination_filter_witness :
    ipv4_checksum (headerBytes zeroDstMem) = 0 ∧
      (isDispatch (ipv4_receive 0 zeroDstMem 20) = true ↔
        (dstAddr zeroDstMem = 0 ∨ dstAddr zeroDstMem = 4294967295)) :=
  ⟨by decide, claim_c6_destination_filter 0 zeroDstMem 20 (by decide)⟩

/-- C3 (code bug): ipv4_receive never consults the frame length, so its
result is the same for any two length arguments; in particular a
zero-length frame is not rejected — the 20 header bytes (and then the
payload) are read from beyond the end of the frame and, when that memory
happens to hold a valid header addressed to the device, the packet is
dispatched.  The spec requires frames shorter than 20 bytes to fail
without any out-of-bounds read. -/
theorem claim_c3_short_frame_processed :
    (∀ (nicIp len1 len2 : Nat) (mem : Nat → Nat),
        ipv4_receive nicIp mem len1 = ipv4_receive nicIp mem len2) ∧
      ipv4_receive 0 shortFrameMem 0 = RxAction.genericLog 0 0 [] 0 :=
  ⟨fun _ _ _ _ => rfl, by decide⟩

/-- C4 (code bug): a frame whose header passes the checksum and destination
checks but carries IHL = 6 (not the required 5) and a declared total length
of 28 against a frame length of 20 is not rejected: ipv4_receive computes a
payload window at offset 24, entirely beyond the 20-byte frame, and
dispatches it.  The spec requires such malformed headers to fail before any
dispatch. -/
theorem claim_c4_malformed_header_dispatched :
    ipv4_receive 0 badIhlMem 20 = RxAction.genericLog 0 0 [0, 0, 0, 0] 4 := by
  decide

/-- C1 counterexample: with the send-side device's address (1) used as the
receive-side device's address, as the claim words it, a packet sent to
destination 2 is dropped by the destination filter — nothing is delivered,
contradicting the claimed delivery of payload, protocol and source. -/
theorem claim_c1_roundtrip_counterexample :
    dispatchOf (ipv4_receive 1
        (fun i => (ipv4_send 1 [0, 0, 0, 0, 0, 0] 2 1 [5]).getD (14 + i) 0) 21)
      = none := by
  decide

/-- C1 amended: for a payload of at most 2014 bytes (the documented frame
buffer precondition; the uint16 total length additionally caps it at
65515), destination and source addresses below 2^32 and a one-byte protocol
tag, feeding the packet produced by ipv4_send — its 14 Ethernet bytes
stripped — into ipv4_receive on a device whose configured address is the
packet's destination delivers exactly the payload, the protocol tag, the
payload's length and the sending device's address. -/
theorem claim_c1_roundtrip_amended (nicIp : Nat) (nicMac : List Nat)
    (dstIp proto : Nat) (payload : List Nat)
    (hsrc : nicIp < 4294967296) (hdst : dstIp < 4294967296) (hproto : proto < 256)
    (hlen : payload.length ≤ 2014) (hbytes : ∀ b ∈ payload, b < 256) :
    dispatchOf (ipv4_receive dstIp
        (fun i => (ipv4_send nicIp nicMac dstIp proto payload).getD (14 + i) 0)
        (20 + payload.length))
      = some (nicIp, proto, payload, payload.length) := by
  exact receive_of_sent_packet nicIp dstIp proto payload dstIp (20 + payload.length) _
    (fun i => frame_getD nicIp nicMac dstIp proto payload (by omega) i)
    hsrc hdst hproto (by omega) hbytes (Or.inl rfl)

theorem claim_c1_roundtrip_amended_witness :
    (1 < 4294967296 ∧ 2 < 4294967296 ∧ 1 < 256
        ∧ ([9, 7] : List Nat).length ≤ 2014) ∧
      dispatchOf (ipv4_receive 2
          (fun i => (ipv4_send 1 [1, 2, 3, 4, 5, 6] 2 1 [9, 7]).getD (14 + i) 0)
          (20 + ([9, 7] : List Nat).length))
        = some (1, 1, [9, 7], ([9, 7] : List Nat).length) :=
  ⟨⟨by decide, by decide, by decide, by decide⟩,
    claim_c1_roundtrip_amended 1 [1, 2, 3, 4, 5, 6] 2 1 [9, 7]
      (by decide) (by decide) (by decide) (by decide) (by decide)⟩

/-- C2 counterexample: on 131076 bytes of 0xFF the 16-bit word sum is
65538 * 65535, which overflows the uint32 accumulator of ipv4_checksum
(the carry out of bit 32 is lost, never folded back), so the code returns
1 where the RFC 1071 checksum of that region is 0. -/
theorem claim_c2_rfc1071_counterexample :
    ipv4_checksum (List.replicate 131076 255)
      ≠ rfc1071_checksum (List.replicate 131076 255) := by
  have hrep : (131076 : Nat) = 2 * 65538 := by norm_num
  have hsum : rfc1071_sum (List.replicate 131076 255) = 65538 * 65535 := by
    rw [hrep, rfc1071_sum_replicate255]
  have hcode : ipv4_checksum (List.replicate 131076 255) = 1 := by
    rw [ipv4_checksum, sumWords_eq_rfc _ 0 (by omega), hsum]
    have hm : (0 + 65538 * 65535) % 4294967296 = 65534 := by norm_num
    rw [hm]
    have hf : foldCarry 65534 = 65534 := rfl
    rw [hf]
  have hspec : rfc1071_checksum (List.replicate 131076 255) = 0 := by
    rw [rfc1071_checksum, hsum]
    have hf : foldCarry (65538 * 65535) = 65535 := by decide
    rw [hf]
  rw [hcode, hspec]
  omega

/-- C2 amended: for every byte region of at most 131070 bytes (each entry
an octet), ipv4_checksum agrees with the RFC 1071 Internet checksum as the
contract words it — the 16-bit word sum then fits the uint32 accumulator,
so no carry is lost.  The 20-byte headers this stack checksums are far
inside the bound. -/
theorem claim_c2_rfc1071_checksum (bytes : List Nat)
    (hb : ∀ b ∈ bytes, b < 256) (hl : bytes.length ≤ 131070) :
    ipv4_checksum bytes = rfc1071_checksum bytes := by
  have hdiv : (bytes.length + 1) / 2 ≤ 65535 := by omega
  have hle := rfc1071_sum_le bytes hb
  have hlt : rfc1071_sum bytes < 4294967296 := by
    have : 65535 * ((bytes.length + 1) / 2) ≤ 65535 * 65535 :=
      Nat.mul_le_mul_left 65535 hdiv
    omega
  rw [ipv4_checksum, rfc1071_checksum, sumWords_eq_rfc _ 0 (by omega),
    Nat.zero_add, Nat.mod_eq_of_lt hlt]

theorem claim_c2_rfc1071_checksum_witness :
    ([1, 2, 3] : List Nat).length ≤ 131070 ∧
      ipv4_checksum [1, 2, 3] = rfc1071_checksum [1, 2, 3] :=
  ⟨by decide, claim_c2_rfc1071_checksum [1, 2, 3] (by decide) (by decide)⟩

/-- C7 counterexample: for a 65516-byte payload the uint16 packet length
(20 + 65516) wraps to 0, so the transmitted frame is 14 bytes — the bare
Ethernet header — not 14 + 20 + 65516 bytes as the claim states for every
call. -/
theorem claim_c7_frame_layout_counterexample :
    (ipv4_send 0 [0, 0, 0, 0, 0, 0] 0 0 (List.replicate 65516 0)).length = 14 ∧
      (ipv4_send 0 [0, 0, 0, 0, 0, 0] 0 0 (List.replicate 65516 0)).length
        ≠ 14 + 20 + (List.replicate 65516 (0 : Nat)).length := by
  have hL : (ipv4_send 0 [0, 0, 0, 0, 0, 0] 0 0 (List.replicate 65516 0)).length
      = 14 := by
    rw [ipv4_send_length, List.length_replicate]
  refine ⟨hL, ?_⟩
  rw [hL, List.length_replicate]
  omega

/-- C7 amended: for every call with a payload of at most 65515 bytes, the
frame handed to the transmit primitive is exactly the all-ones broadcast
link destination (regardless of the IP destination), the device's link
address, ethertype 0x0800, the 20-byte header of ipv4_header (version/IHL
0x45, TOS 0, total length 20 + n in network order — conjunct three decodes
it — identification 0, flags/offset 0, TTL 64, protocol, checksum over the
zeroed-field header, source = device address, destination = the caller's),
then the n payload bytes; its length is 14 + 20 + n. -/
theorem claim_c7_frame_layout (nicIp : Nat) (nicMac : List Nat)
    (dstIp proto : Nat) (payload : List Nat) (h : payload.length ≤ 65515) :
    ipv4_send nicIp nicMac dstIp proto payload
        = List.replicate 6 255 ++ macBytes nicMac ++ [8, 0]
          ++ ipv4_header nicIp dstIp proto payload.length
          ++ payload.map (fun b => b % 256)
      ∧ (ipv4_send nicIp nicMac dstIp proto payload).length
          = 14 + 20 + payload.length
      ∧ 256 * (ipv4_header nicIp dstIp proto payload.length).getD 2 0
            + (ipv4_header nicIp dstIp proto payload.length).getD 3 0
          = 20 + payload.length := by
  refine ⟨ipv4_send_eq _ _ _ _ _ h, ?_, ?_⟩
  · rw [ipv4_send_length]
    omega
  · have hg2 : (ipv4_header nicIp dstIp proto payload.length).getD 2 0
        = (20 + payload.length) % 65536 / 256 % 256 := rfl
    have hg3 : (ipv4_header nicIp dstIp proto payload.length).getD 3 0
        = (20 + payload.length) % 65536 % 256 := rfl
    rw [hg2, hg3]
    omega

theorem claim_c7_frame_layout_witness :
    ([3, 1] : List Nat).length ≤ 65515 ∧
      (ipv4_send 7 [1, 2, 3, 4, 5, 6] 9 17 [3, 1]
          = List.replicate 6 255 ++ macBytes [1, 2, 3, 4, 5, 6] ++ [8, 0]
            ++ ipv4_header 7 9 17 ([3, 1] : List Nat).length
            ++ ([3, 1] : List Nat).map (fun b => b % 256)
        ∧ (ipv4_send 7 [1, 2, 3, 4, 5, 6] 9 17 [3, 1]).length
            = 14 + 20 + ([3, 1] : List Nat).length
        ∧ 256 * (ipv4_header 7 9 17 ([3, 1] : List Nat).length).getD 2 0
              + (ipv4_header 7 9 17 ([3, 1] : List Nat).length).getD 3 0
            = 20 + ([3, 1] : List Nat).length) :=
  ⟨by decide, claim_c7_frame_layout 7 [1, 2, 3, 4, 5, 6] 9 17 [3, 1] (by decide)⟩

/-- C9: whenever the payload length plus the 20-byte IPv4 header plus the
14-byte link header fits the 2048-byte frame buffers (payload at most 2014
bytes), every region ipv4_send writes — each header field store, the
payload copy, and the Ethernet assembly — lies within the bounds of its
2048-byte stack buffer. -/
theorem claim_c9_send_writes_in_bounds (payload_len : Nat)
    (h : payload_len ≤ 2014) :
    writesInBounds payload_len = true := by
  rw [writesInBounds, ipv4_send_writes]
  simp
  omega

theorem claim_c9_send_writes_in_bounds_witness :
    2014 ≤ 2014 ∧ writesInBounds 2014 = true :=
  ⟨by decide, claim_c9_send_writes_in_bounds 2014 (by decide)⟩

/-- C10: for every call with a payload longer than 65515 bytes (the type of
the length parameter caps it at 65535), the total-length field stored in
the header decodes to (20 + payload_len) mod 2^16 — not 20 + payload_len,
which no longer fits — and the transmitted frame length is that wrapped
value plus 14, so the invariant that total length equals header size plus
payload length is silently violated. -/
theorem claim_c10_total_length_wraps (nicIp : Nat) (nicMac : List Nat)
    (dstIp proto : Nat) (payload : List Nat)
    (h1 : 65515 < payload.length) (h2 : payload.length ≤ 65535) :
    256 * (ipv4_header nicIp dstIp proto payload.length).getD 2 0
          + (ipv4_header nicIp dstIp proto payload.length).getD 3 0
        = (20 + payload.length) % 65536
      ∧ (20 + payload.length) % 65536 ≠ 20 + payload.length
      ∧ (ipv4_send nicIp nicMac dstIp proto payload).length
          = (20 + payload.length) % 65536 + 14 := by
  refine ⟨?_, by omega, ?_⟩
  · have hg2 : (ipv4_header nicIp dstIp proto payload.length).getD 2 0
        = (20 + payload.length) % 65536 / 256 % 256 := rfl
    have hg3 : (ipv4_header nicIp dstIp proto payload.length).getD 3 0
        = (20 + payload.length) % 65536 % 256 := rfl
    rw [hg2, hg3]
    omega
  · rw [ipv4_send_length]
    omega

theorem claim_c10_total_length_wraps_witness :
    65515 < (List.replicate 65516 (0 : Nat)).length ∧
      (List.replicate 65516 (0 : Nat)).length ≤ 65535 ∧
      (256 * (ipv4_header 0 0 0 (List.replicate 65516 (0 : Nat)).length).getD 2 0
            + (ipv4_header 0 0 0 (List.replicate 65516 (0 : Nat)).length).getD 3 0
          = (20 + (List.replicate 65516 (0 : Nat)).length) % 65536
        ∧ (20 + (List.replicate 65516 (0 : Nat)).length) % 65536
            ≠ 20 + (List.replicate 65516 (0 : Nat)).length
        ∧ (ipv4_send 0 [0, 0, 0, 0, 0, 0] 0 0 (List.replicate 65516 0)).length
            = (20 + (List.replicate 65516 (0 : Nat)).length) % 65536 + 14) :=
  ⟨by rw [List.length_replicate]; omega, by rw [List.length_replicate]; omega,
    claim_c10_total_length_wraps 0 [0, 0, 0, 0, 0, 0] 0 0
      (List.replicate 65516 0) (by rw [List.length_replicate]; omega)
      (by rw [List.length_replicate]; omega)⟩
